import Mathlib

/-!
Verification of the linux-maps-parser library (src/lib.rs): a line-oriented
parser for the kernel memory-mapping listing of a process.

The Rust source is shallowly embedded below.  Machine integers are modelled
as `Nat` with explicit bounds (`u64Bound`, `u32Bound`); code that can panic
(`unwrap`, out-of-bounds indexing) is modelled with `Option`, where `none`
stands for a panic; fallible code returns `Except`.  The I/O environment
(existence check for `/proc/<pid>/maps`, opening the file, the buffered line
reader whose per-line reads may fail) is modelled by `MapsEnv`: a boolean
existence flag and an open result carrying the list of per-line read
results (`none` = a line whose read failed, skipped by `lines.flatten()`).

Whitespace splitting is modelled over the line's character list with a
structural splitter mirroring Rust `str::split` / `str::split_whitespace`
(split on every separator occurrence, keeping empty pieces for `split`,
dropping them for `split_whitespace`).
-/

namespace LinuxMapsParser

/-- Splits a character list at every character satisfying `p`, keeping empty
pieces, mirroring the semantics of Rust `str::split` (and `String.split`):
the empty list yields `[[]]`, a trailing separator yields a trailing `[]`. -/
def splitOnP (p : Char → Bool) : List Char → List (List Char)
  | [] => [[]]
  | c :: rest =>
    match splitOnP p rest with
    | [] => [[]]
    | g :: gs => if p c then [] :: g :: gs else (c :: g) :: gs

/-- Rust `str::split(sep)` on a string, as a list of strings. -/
def stringSplit (s : String) (p : Char → Bool) : List String :=
  (splitOnP p s.data).map String.mk

/-- Rust `str::split_whitespace`: split on whitespace and drop empty pieces. -/
def splitWhitespace (s : String) : List String :=
  ((splitOnP Char.isWhitespace s.data).filter (fun g => !g.isEmpty)).map String.mk

/-- Value of one digit character, mirroring Rust `char::to_digit(radix)`:
`0`-`9`, then `a`-`z` and `A`-`Z` for values 10 and up, valid when below
the radix. -/
def charDigit? (radix : Nat) (c : Char) : Option Nat :=
  match
    (if '0' ≤ c ∧ c ≤ '9' then some (c.toNat - '0'.toNat)
     else if 'a' ≤ c ∧ c ≤ 'z' then some (c.toNat - 'a'.toNat + 10)
     else if 'A' ≤ c ∧ c ≤ 'Z' then some (c.toNat - 'A'.toNat + 10)
     else none) with
  | some d => if d < radix then some d else none
  | none => none

/-- Applies `f` to every element, succeeding only when every application
succeeds, mirroring a Rust `.map(|x| f(x).unwrap()).collect()` pipeline
(where any `none` is a panic). -/
def collectMapped {α β : Type} (f : α → Option β) : List α → Option (List β)
  | [] => some []
  | a :: as =>
    match f a with
    | none => none
    | some b =>
      match collectMapped f as with
      | none => none
      | some bs => some (b :: bs)

/-- Exclusive upper bound of the `u64` value domain. -/
def u64Bound : Nat := 2 ^ 64

/-- Exclusive upper bound of the `u32` value domain. -/
def u32Bound : Nat := 2 ^ 32

/-- Rust `uN::from_str_radix(s, radix)` for an unsigned type with exclusive
bound `bound`: an optional leading `+`, then at least one digit valid for
the radix; the value must fit below `bound` (checked arithmetic overflow
is an error). A leading `-` is not accepted for unsigned types. -/
def fromStrRadix? (radix bound : Nat) (s : String) : Option Nat :=
  match (match s.data with | '+' :: rest => rest | cs => cs) with
  | [] => none
  | cs =>
    match collectMapped (charDigit? radix) cs with
    | none => none
    | some ds =>
      if ds.foldl (fun acc d => acc * radix + d) 0 < bound then
        some (ds.foldl (fun acc d => acc * radix + d) 0)
      else none

/-- Rust `str::parse::<u32>()`, i.e. `u32::from_str_radix(s, 10)`. -/
def parseU32? (s : String) : Option Nat :=
  fromStrRadix? 10 u32Bound s

/-- The error enum of src/lib.rs.  Payloads (`std::io::Error`,
`std::num::ParseIntError`) carry no information the parser inspects and are
dropped in the model. -/
inductive Error where
  | MapsFileDoesNotExist : Error
  | FileOpenError : Error
  | IntParseError : Error
deriving DecidableEq

/-- Permission flags of one mapping (struct `Permissions` in src/lib.rs). -/
structure Permissions where
  read : Bool
  write : Bool
  execute : Bool
deriving DecidableEq

/-- One parsed mapping record (struct `Entry` in src/lib.rs). -/
structure Entry where
  start_addr : Nat
  end_addr : Nat
  perms : Permissions
  offset : Nat
  dev_maj : Nat
  dev_min : Nat
  inode : Nat
  path : Option String
deriving DecidableEq

/-- The collection of parsed entries (struct `Entries` in src/lib.rs). -/
structure Entries where
  entries : List Entry
deriving DecidableEq

/-- Method `Entries::filter_by_pathname`: keep the entries whose path is
present and equal to `value`.  The Rust guard `e.path.is_some() &&
e.path.as_ref().unwrap() == value` is the short-circuit match below. -/
def Entries.filter_by_pathname (self : Entries) (value : String) : List Entry :=
  self.entries.filter (fun e =>
    match e.path with
    | some p => p == value
    | none => false)

/-- Method `Entry::is_readable`. -/
def Entry.is_readable (self : Entry) : Bool := self.perms.read

/-- Method `Entry::is_writable`. -/
def Entry.is_writable (self : Entry) : Bool := self.perms.write

/-- Method `Entry::is_executable`. -/
def Entry.is_executable (self : Entry) : Bool := self.perms.execute

/-- Function `parse_addresses`: split the token on `-`, hex-parse every
piece as `u64` with `unwrap` (a failed parse is a panic, i.e. `none`), then
index pieces 0 and 1 (fewer than two pieces is an index panic). -/
def parse_addresses (addresses : String) : Option (Nat × Nat) :=
  match collectMapped (fromStrRadix? 16 u64Bound) (stringSplit addresses (fun c => c == '-')) with
  | some (a :: b :: _) => some (a, b)
  | _ => none

/-- Function `parse_params`: index characters 0, 1, 2 of the token (fewer
than three characters is an index panic, i.e. `none`) and compare them with
`r`, `w`, `x`. -/
def parse_params (params : String) : Option Permissions :=
  match params.data with
  | c0 :: c1 :: c2 :: _ => some ⟨c0 == 'r', c1 == 'w', c2 == 'x'⟩
  | _ => none

/-- Function `parse_offset`: hex-parse the token as `u64`, mapping a parse
failure to the error value `Error::IntParseError` (no panic here). -/
def parse_offset (offset : String) : Except Error Nat :=
  match fromStrRadix? 16 u64Bound offset with
  | some v => Except.ok v
  | none => Except.error Error.IntParseError

/-- Function `parse_device`: split the token on `:`, hex-parse every piece
as `u32` with `unwrap` (panic on failure), then index pieces 0 and 1. -/
def parse_device (device : String) : Option (Nat × Nat) :=
  match collectMapped (fromStrRadix? 16 u32Bound) (stringSplit device (fun c => c == ':')) with
  | some (a :: b :: _) => some (a, b)
  | _ => none

/-- Outcome of the body of the `for` loop of `parse` on one line: the line
is skipped, the process panics, the whole parse aborts with an error
(the `?` on `parse_offset`), or one entry is pushed. -/
inductive LineResult where
  | skip : LineResult
  | panics : LineResult
  | error : Error → LineResult
  | entry : Entry → LineResult
deriving DecidableEq

/-- Outcome of `parse`: a panic, an error value, or a collection. -/
inductive ParseResult where
  | panics : ParseResult
  | error : Error → ParseResult
  | ok : Entries → ParseResult
deriving DecidableEq

/-- The body of the `for` loop of `parse` in src/lib.rs, one line at a
time: split on whitespace; if there are at least 5 tokens, decode tokens
0-4 positionally (`continue` on a `get` miss, which is unreachable here;
panic on a decoder panic; abort on an offset decode error) and build the
entry, with token 5, when present, as the path. -/
def processLine (line : String) : LineResult :=
  let splitted := splitWhitespace line
  if 5 ≤ splitted.length then
    match splitted.get? 0 with
    | none => LineResult.skip
    | some v0 =>
      match parse_addresses v0 with
      | none => LineResult.panics
      | some (start_addr, end_addr) =>
        match splitted.get? 1 with
        | none => LineResult.skip
        | some v1 =>
          match parse_params v1 with
          | none => LineResult.panics
          | some perms =>
            match splitted.get? 2 with
            | none => LineResult.skip
            | some v2 =>
              match parse_offset v2 with
              | Except.error e => LineResult.error e
              | Except.ok offset =>
                match splitted.get? 3 with
                | none => LineResult.skip
                | some v3 =>
                  match parse_device v3 with
                  | none => LineResult.panics
                  | some (dev_maj, dev_min) =>
                    match splitted.get? 4 with
                    | none => LineResult.skip
                    | some v4 =>
                      match parseU32? v4 with
                      | none => LineResult.panics
                      | some inode =>
                        LineResult.entry
                          ⟨start_addr, end_addr, perms, offset,
                           dev_maj, dev_min, inode, splitted.get? 5⟩
  else
    LineResult.skip

/-- The `for` loop of `parse`, accumulating pushed entries (in reverse). -/
def parseLinesAux : List String → List Entry → ParseResult
  | [], acc => ParseResult.ok ⟨acc.reverse⟩
  | l :: ls, acc =>
    match processLine l with
    | LineResult.skip => parseLinesAux ls acc
    | LineResult.panics => ParseResult.panics
    | LineResult.error e => ParseResult.error e
    | LineResult.entry e => parseLinesAux ls (e :: acc)

/-- The line-processing phase of `parse` over the successfully read lines. -/
def parseLines (ls : List String) : ParseResult :=
  parseLinesAux ls []

/-- The I/O environment of one `parse(pid)` call: whether
`/proc/<pid>/maps` exists (`Path::exists`), and the result of opening it —
an open failure, or the list of per-line read results of the buffered
reader, where `none` is a line whose read failed. -/
structure MapsEnv where
  fileExists : Bool
  openResult : Except Unit (List (Option String))

/-- Function `parse` in src/lib.rs: return `MapsFileDoesNotExist` when the
existence check fails; surface an open failure as `FileOpenError`; then
iterate over `lines.flatten()` (read failures are silently dropped) with
`processLine`. -/
def parse (env : MapsEnv) : ParseResult :=
  if env.fileExists = false then
    ParseResult.error Error.MapsFileDoesNotExist
  else
    match env.openResult with
    | Except.error _ => ParseResult.error Error.FileOpenError
    | Except.ok lineReads => parseLines (lineReads.filterMap id)

/-- The entry produced by one line, when the line produces one. -/
def lineEntry? (l : String) : Option Entry :=
  match processLine l with
  | LineResult.entry e => some e
  | _ => none

/-- Whether a line outcome is a pushed entry. -/
def LineResult.isEntry : LineResult → Bool
  | LineResult.entry _ => true
  | _ => false

/-- The positional decoding chain of the loop body, applied to the first
five tokens and the optional sixth (the path), in source order: address
range, permissions, offset, device, inode. -/
def decodeTokens (t0 t1 t2 t3 t4 : String) (path : Option String) : LineResult :=
  match parse_addresses t0 with
  | none => LineResult.panics
  | some (start_addr, end_addr) =>
    match parse_params t1 with
    | none => LineResult.panics
    | some perms =>
      match parse_offset t2 with
      | Except.error e => LineResult.error e
      | Except.ok offset =>
        match parse_device t3 with
        | none => LineResult.panics
        | some (dev_maj, dev_min) =>
          match parseU32? t4 with
          | none => LineResult.panics
          | some inode =>
            LineResult.entry
              ⟨start_addr, end_addr, perms, offset, dev_maj, dev_min, inode, path⟩

theorem processLine_short (l : String) (h : (splitWhitespace l).length < 5) :
    processLine l = LineResult.skip := by
  simp only [processLine]
  rw [if_neg (by omega)]

theorem processLine_eq (l t0 t1 t2 t3 t4 : String) (rest : List String)
    (hts : splitWhitespace l = t0 :: t1 :: t2 :: t3 :: t4 :: rest) :
    processLine l = decodeTokens t0 t1 t2 t3 t4 rest.head? := by
  simp only [processLine, decodeTokens, hts, List.length_cons, List.get?]
  rw [if_pos (by omega)]
  cases parse_addresses t0 with
  | none => rfl
  | some ab =>
    cases ab with
    | mk a b =>
      cases parse_params t1 with
      | none => rfl
      | some p =>
        cases parse_offset t2 with
        | error e => rfl
        | ok o =>
          cases parse_device t3 with
          | none => rfl
          | some dd =>
            cases dd with
            | mk dj dn =>
              cases parseU32? t4 with
              | none => rfl
              | some ino => cases rest <;> rfl

theorem parse_open (lineReads : List (Option String)) :
    parse ⟨true, Except.ok lineReads⟩ = parseLines (lineReads.filterMap id) := rfl

theorem parseLines_singleton (l : String) :
    parseLines [l] =
      match processLine l with
      | LineResult.skip => ParseResult.ok ⟨[]⟩
      | LineResult.panics => ParseResult.panics
      | LineResult.error e => ParseResult.error e
      | LineResult.entry e => ParseResult.ok ⟨[e]⟩ := by
  cases h : processLine l <;> simp only [parseLines, parseLinesAux, h, List.reverse_nil, List.reverse_cons, List.nil_append]

theorem parseLines_cons_panics (l : String) (ls : List String)
    (h : processLine l = LineResult.panics) :
    parseLines (l :: ls) = ParseResult.panics := by
  simp only [parseLines, parseLinesAux, h]

theorem collectMapped_mem {α β : Type} (f : α → Option β) (xs : List α) (ys : List β)
    (h : collectMapped f xs = some ys) : ∀ y ∈ ys, ∃ x ∈ xs, f x = some y := by
  induction xs generalizing ys with
  | nil =>
    simp only [collectMapped, Option.some.injEq] at h
    subst h
    intro y hy
    cases hy
  | cons a as ih =>
    simp only [collectMapped] at h
    cases hfa : f a with
    | none => rw [hfa] at h; cases h
    | some b =>
      rw [hfa] at h
      cases hrec : collectMapped f as with
      | none => rw [hrec] at h; cases h
      | some bs =>
        rw [hrec] at h
        cases h
        intro y hy
        cases hy with
        | head => exact ⟨a, List.mem_cons_self a as, hfa⟩
        | tail _ hmem =>
          obtain ⟨x, hx, hfx⟩ := ih bs hrec y hmem
          exact ⟨x, List.mem_cons_of_mem a hx, hfx⟩

theorem collectMapped_length {α β : Type} (f : α → Option β) (xs : List α) (ys : List β)
    (h : collectMapped f xs = some ys) : ys.length = xs.length := by
  induction xs generalizing ys with
  | nil => simp only [collectMapped, Option.some.injEq] at h; subst h; rfl
  | cons a as ih =>
    simp only [collectMapped] at h
    cases hfa : f a with
    | none => rw [hfa] at h; cases h
    | some b =>
      rw [hfa] at h
      cases hrec : collectMapped f as with
      | none => rw [hrec] at h; cases h
      | some bs =>
        rw [hrec] at h
        cases h
        simp only [List.length_cons, ih bs hrec]

theorem collectMapped_none_of_mem {α β : Type} (f : α → Option β) (xs : List α) (x : α)
    (hx : x ∈ xs) (hfx : f x = none) : collectMapped f xs = none := by
  induction xs with
  | nil => cases hx
  | cons a as ih =>
    simp only [collectMapped]
    cases hx with
    | head => rw [hfx]
    | tail _ hmem =>
      cases hfa : f a with
      | none => rfl
      | some b => rw [ih hmem]

theorem collectMapped_of_forall_isSome {α β : Type} (f : α → Option β) (xs : List α)
    (h : ∀ x ∈ xs, (f x).isSome = true) : ∃ ys, collectMapped f xs = some ys := by
  induction xs with
  | nil => exact ⟨[], rfl⟩
  | cons a as ih =>
    have ha := h a (List.mem_cons_self a as)
    cases hfa : f a with
    | none => rw [hfa] at ha; cases ha
    | some b =>
      obtain ⟨bs, hbs⟩ := ih (fun x hx => h x (List.mem_cons_of_mem a hx))
      exact ⟨b :: bs, by simp only [collectMapped, hfa, hbs]⟩

theorem fromStrRadix_lt (radix bound : Nat) (s : String) (v : Nat)
    (h : fromStrRadix? radix bound s = some v) : v < bound := by
  simp only [fromStrRadix?] at h
  split at h
  · cases h
  · split at h
    · cases h
    · split at h
      · cases h
        assumption
      · cases h

theorem parse_addresses_lt (s : String) (a b : Nat)
    (h : parse_addresses s = some (a, b)) : a < u64Bound ∧ b < u64Bound := by
  simp only [parse_addresses] at h
  cases hc : collectMapped (fromStrRadix? 16 u64Bound) (stringSplit s (fun c => c == '-')) with
  | none => rw [hc] at h; cases h
  | some vs =>
    rw [hc] at h
    match vs, h with
    | x :: y :: rest, h =>
      cases h
      have hx := collectMapped_mem _ _ _ hc a (List.mem_cons_self _ _)
      have hy := collectMapped_mem _ _ _ hc b (List.mem_cons_of_mem _ (List.mem_cons_self _ _))
      obtain ⟨tx, _, htx⟩ := hx
      obtain ⟨ty, _, hty⟩ := hy
      exact ⟨fromStrRadix_lt _ _ _ _ htx, fromStrRadix_lt _ _ _ _ hty⟩

theorem exists_five_tokens (ts : List String) (h : 5 ≤ ts.length) :
    ∃ t0 t1 t2 t3 t4 rest, ts = t0 :: t1 :: t2 :: t3 :: t4 :: rest := by
  rcases ts with _ | ⟨t0, _ | ⟨t1, _ | ⟨t2, _ | ⟨t3, _ | ⟨t4, rest⟩⟩⟩⟩⟩
  all_goals simp only [List.length_nil, List.length_cons] at h
  all_goals first
  | omega
  | exact ⟨t0, t1, t2, t3, t4, rest, rfl⟩

theorem decodeTokens_entry_bounds (t0 t1 t2 t3 t4 : String) (p : Option String) (e : Entry)
    (h : decodeTokens t0 t1 t2 t3 t4 p = LineResult.entry e) :
    e.start_addr < u64Bound ∧ e.end_addr < u64Bound := by
  simp only [decodeTokens] at h
  cases h0 : parse_addresses t0 with
  | none => rw [h0] at h; cases h
  | some ab =>
    rw [h0] at h
    obtain ⟨a, b⟩ := ab
    cases h1 : parse_params t1 with
    | none => rw [h1] at h; cases h
    | some perms =>
      rw [h1] at h
      cases h2 : parse_offset t2 with
      | error er => rw [h2] at h; cases h
      | ok off =>
        rw [h2] at h
        cases h3 : parse_device t3 with
        | none => rw [h3] at h; cases h
        | some dd =>
          rw [h3] at h
          obtain ⟨dj, dn⟩ := dd
          cases h4 : parseU32? t4 with
          | none => rw [h4] at h; cases h
          | some ino =>
            rw [h4] at h
            cases h
            exact parse_addresses_lt t0 a b h0

theorem processLine_entry_bounds (l : String) (e : Entry)
    (h : processLine l = LineResult.entry e) :
    e.start_addr < u64Bound ∧ e.end_addr < u64Bound := by
  by_cases h5 : 5 ≤ (splitWhitespace l).length
  · obtain ⟨t0, t1, t2, t3, t4, rest, hts⟩ := exists_five_tokens _ h5
    rw [processLine_eq l t0 t1 t2 t3 t4 rest hts] at h
    exact decodeTokens_entry_bounds _ _ _ _ _ _ _ h
  · rw [processLine_short l (by omega)] at h
    cases h

theorem parseLinesAux_ok_mem (P : Entry → Prop)
    (hP : ∀ l e, processLine l = LineResult.entry e → P e) :
    ∀ (ls : List String) (acc : List Entry) (es : Entries),
      (∀ e ∈ acc, P e) → parseLinesAux ls acc = ParseResult.ok es → ∀ e ∈ es.entries, P e := by
  intro ls
  induction ls with
  | nil =>
    intro acc es hacc h
    simp only [parseLinesAux, ParseResult.ok.injEq] at h
    subst h
    intro e he
    exact hacc e (List.mem_reverse.mp he)
  | cons l ls ih =>
    intro acc es hacc h
    simp only [parseLinesAux] at h
    cases hp : processLine l with
    | skip => rw [hp] at h; exact ih acc es hacc h
    | panics => rw [hp] at h; cases h
    | error e0 => rw [hp] at h; cases h
    | entry e0 =>
      rw [hp] at h
      refine ih (e0 :: acc) es ?_ h
      intro e he
      cases he with
      | head => exact hP l e0 hp
      | tail _ hmem => exact hacc e hmem

theorem LineResult.isEntry_iff (r : LineResult) :
    r.isEntry = true ↔ ∃ e, r = LineResult.entry e := by
  cases r <;> simp [LineResult.isEntry]

theorem parseLinesAux_all (ls : List String)
    (h : ∀ l ∈ ls, processLine l = LineResult.skip ∨ (processLine l).isEntry = true) :
    ∀ acc : List Entry,
      parseLinesAux ls acc = ParseResult.ok ⟨acc.reverse ++ ls.filterMap lineEntry?⟩ := by
  induction ls with
  | nil => intro acc; simp [parseLinesAux]
  | cons l ls ih =>
    intro acc
    have hl := h l (List.mem_cons_self _ _)
    have hrest := fun x hx => h x (List.mem_cons_of_mem l hx)
    simp only [parseLinesAux]
    cases hp : processLine l with
    | skip =>
      have hle : lineEntry? l = none := by simp [lineEntry?, hp]
      rw [ih hrest acc]
      simp [List.filterMap_cons, hle]
    | panics =>
      rw [hp] at hl
      simp [LineResult.isEntry] at hl
    | error e0 =>
      rw [hp] at hl
      simp [LineResult.isEntry] at hl
    | entry e0 =>
      have hle : lineEntry? l = some e0 := by simp [lineEntry?, hp]
      show parseLinesAux ls (e0 :: acc) = _
      rw [ih hrest (e0 :: acc)]
      simp [List.filterMap_cons, hle, List.reverse_cons, List.append_assoc]

theorem filterMap_lineEntry_length (ls : List String)
    (h : ∀ l ∈ ls, 5 ≤ (splitWhitespace l).length → (processLine l).isEntry = true) :
    (ls.filterMap lineEntry?).length
      = ls.countP (fun l => decide (5 ≤ (splitWhitespace l).length)) := by
  induction ls with
  | nil => rfl
  | cons l ls ih =>
    have hrest := fun x hx => h x (List.mem_cons_of_mem l hx)
    by_cases h5 : 5 ≤ (splitWhitespace l).length
    · have hl := h l (List.mem_cons_self _ _) h5
      obtain ⟨e, he⟩ := (LineResult.isEntry_iff _).mp hl
      have hle : lineEntry? l = some e := by simp [lineEntry?, he]
      simp [List.filterMap_cons, hle, List.countP_cons, h5, ih hrest]
    · have hskip := processLine_short l (by omega)
      have hle : lineEntry? l = none := by simp [lineEntry?, hskip]
      simp [List.filterMap_cons, hle, List.countP_cons, h5, ih hrest]

theorem parseLinesAux_skip_middle (l : String) (h : processLine l = LineResult.skip) :
    ∀ (pre post : List String) (acc : List Entry),
      parseLinesAux (pre ++ l :: post) acc = parseLinesAux (pre ++ post) acc := by
  intro pre
  induction pre with
  | nil =>
    intro post acc
    simp only [List.nil_append, parseLinesAux, h]
  | cons p ps ih =>
    intro post acc
    simp only [List.cons_append, parseLinesAux]
    cases hp : processLine p with
    | skip => exact ih post acc
    | panics => rfl
    | error e => rfl
    | entry e => exact ih post (e :: acc)

theorem filterMap_id_map_some {α : Type} (ls : List α) :
    (ls.map some).filterMap id = ls := by
  induction ls with
  | nil => rfl
  | cons a as ih => simp [List.filterMap_cons, ih]

/-- C5: for a line sequence in which every line with at least 5
whitespace-delimited tokens decodes to an entry, parse succeeds and returns
the collection of exactly those entries, one per such line and in source
order (the order-preserving filterMap of the per-line decoder), and the
number of entries equals the number of lines with at least 5 tokens. -/
theorem claim5_count_and_order (ls : List String)
    (h : ∀ l ∈ ls, 5 ≤ (splitWhitespace l).length → (processLine l).isEntry = true) :
    parse ⟨true, Except.ok (ls.map some)⟩ = ParseResult.ok ⟨ls.filterMap lineEntry?⟩
    ∧ (ls.filterMap lineEntry?).length
        = ls.countP (fun l => decide (5 ≤ (splitWhitespace l).length)) := by
  constructor
  · rw [parse_open, filterMap_id_map_some]
    have hall : ∀ l ∈ ls, processLine l = LineResult.skip ∨ (processLine l).isEntry = true := by
      intro l hl
      by_cases h5 : 5 ≤ (splitWhitespace l).length
      · exact Or.inr (h l hl h5)
      · exact Or.inl (processLine_short l (by omega))
    simpa [parseLines] using parseLinesAux_all ls hall []
  · exact filterMap_lineEntry_length ls h

/-- Witness for C5 at a concrete two-line input: one well-formed long line
and one short line. -/
theorem claim5_witness :
    parse ⟨true, Except.ok (["0-1 rwxp 0 00:00 1", "x"].map some)⟩
      = ParseResult.ok ⟨["0-1 rwxp 0 00:00 1", "x"].filterMap lineEntry?⟩
    ∧ (["0-1 rwxp 0 00:00 1", "x"].filterMap lineEntry?).length
      = (["0-1 rwxp 0 00:00 1", "x"].countP (fun l => decide (5 ≤ (splitWhitespace l).length))) :=
  claim5_count_and_order ["0-1 rwxp 0 00:00 1", "x"] (by decide)

/-- C6: a line with fewer than 5 whitespace-delimited tokens is skipped
silently: inserting it anywhere in the line sequence leaves the result of
parse unchanged (no entry is contributed and no error is produced). -/
theorem claim6_short_line_skipped (l : String) (pre post : List (Option String))
    (h : (splitWhitespace l).length < 5) :
    parse ⟨true, Except.ok (pre ++ some l :: post)⟩
      = parse ⟨true, Except.ok (pre ++ post)⟩ := by
  rw [parse_open, parse_open]
  have hs : (pre ++ some l :: post).filterMap id
      = pre.filterMap id ++ l :: post.filterMap id := by
    simp [List.filterMap_append, List.filterMap_cons]
  have hs2 : (pre ++ post).filterMap id = pre.filterMap id ++ post.filterMap id := by
    simp [List.filterMap_append]
  rw [hs, hs2]
  simp only [parseLines]
  exact parseLinesAux_skip_middle l (processLine_short l h) _ _ []

/-- Witness for C6: inserting the empty line between two lines changes
nothing. -/
theorem claim6_witness :
    (splitWhitespace "").length < 5
    ∧ parse ⟨true, Except.ok [some "0-1 rwxp 0 00:00 1", some "", some "[heap]"]⟩
      = parse ⟨true, Except.ok [some "0-1 rwxp 0 00:00 1", some "[heap]"]⟩ :=
  ⟨by decide, claim6_short_line_skipped "" [some "0-1 rwxp 0 00:00 1"] [some "[heap]"] (by decide)⟩

/-- C7: filter_by_pathname returns exactly the entries whose path is
present and equal (by exact string equality) to the target, in the order
of the collection: it is the order-preserving filter by the predicate
`path = some target`, and a sublist of the collection. Entries with an
absent path never match. -/
theorem claim7_filter_by_pathname_exact (c : Entries) (v : String) :
    c.filter_by_pathname v = c.entries.filter (fun e => e.path == some v)
    ∧ List.Sublist (c.filter_by_pathname v) c.entries := by
  constructor
  · simp only [Entries.filter_by_pathname]
    apply List.filter_congr
    intro e _
    cases hp : e.path with
    | none => rfl
    | some p => rfl
  · exact List.filter_sublist _

/-- C8: for a permissions token with at least 3 characters, decoding
succeeds and yields read true iff character 0 is r, write true iff
character 1 is w, execute true iff character 2 is x. -/
theorem claim8_parse_params_spec (s : String) (c0 c1 c2 : Char) (rest : List Char)
    (h : s.data = c0 :: c1 :: c2 :: rest) :
    parse_params s = some ⟨c0 == 'r', c1 == 'w', c2 == 'x'⟩ := by
  simp only [parse_params, h]

/-- Witness for C8 at the token r--p, which yields read only. -/
theorem claim8_witness :
    "r--p".data = 'r' :: '-' :: '-' :: ['p']
    ∧ parse_params "r--p" = some ⟨true, false, false⟩ := by
  refine ⟨rfl, ?_⟩
  have h := claim8_parse_params_spec "r--p" 'r' '-' '-' ['p'] rfl
  rw [h]
  decide

/-- C9: when the maps file for the process does not exist, parse returns
the resource-absence error immediately, regardless of what opening or
reading the resource would have yielded (so neither is attempted). -/
theorem claim9_resource_not_found (openResult : Except Unit (List (Option String))) :
    parse ⟨false, openResult⟩ = ParseResult.error Error.MapsFileDoesNotExist := rfl

/-- C10: a per-line read failure after a successful open is silently
skipped: removing the failed read from the line sequence leaves the result
of parse unchanged, so such a failure never surfaces as an error and never
aborts the parse. -/
theorem claim10_read_error_skipped (pre post : List (Option String)) :
    parse ⟨true, Except.ok (pre ++ none :: post)⟩
      = parse ⟨true, Except.ok (pre ++ post)⟩ := by
  rw [parse_open, parse_open]
  congr 1
  simp [List.filterMap_append, List.filterMap_cons]

/-- C1 (refuted as stated): on a 5-token line whose address token is not
hexadecimal, parse does not return an error value: it panics. -/
theorem claim1_counterexample :
    parse ⟨true, Except.ok [some "zz-zz rwxp 0 00:00 1"]⟩ = ParseResult.panics := by
  decide

/-- C1 (amended): on a line with at least 5 tokens, a decode failure in the
address, permission, device, or inode token makes parse panic rather than
return an error value; only a decode failure in the offset token (with the
address and permission tokens decoding) yields the error value
IntParseError. -/
theorem claim1_decode_failure_behavior (l t0 t1 t2 t3 t4 : String) (rest : List String)
    (hts : splitWhitespace l = t0 :: t1 :: t2 :: t3 :: t4 :: rest) :
    (parse_addresses t0 = none →
      parse ⟨true, Except.ok [some l]⟩ = ParseResult.panics)
    ∧ (∀ ab, parse_addresses t0 = some ab → parse_params t1 = none →
      parse ⟨true, Except.ok [some l]⟩ = ParseResult.panics)
    ∧ (∀ ab p, parse_addresses t0 = some ab → parse_params t1 = some p →
      parse_offset t2 = Except.error Error.IntParseError →
      parse ⟨true, Except.ok [some l]⟩ = ParseResult.error Error.IntParseError)
    ∧ (∀ ab p o, parse_addresses t0 = some ab → parse_params t1 = some p →
      parse_offset t2 = Except.ok o → parse_device t3 = none →
      parse ⟨true, Except.ok [some l]⟩ = ParseResult.panics)
    ∧ (∀ ab p o dd, parse_addresses t0 = some ab → parse_params t1 = some p →
      parse_offset t2 = Except.ok o → parse_device t3 = some dd → parseU32? t4 = none →
      parse ⟨true, Except.ok [some l]⟩ = ParseResult.panics) := by
  have key : parse ⟨true, Except.ok [some l]⟩ =
      match decodeTokens t0 t1 t2 t3 t4 rest.head? with
      | LineResult.skip => ParseResult.ok ⟨[]⟩
      | LineResult.panics => ParseResult.panics
      | LineResult.error e => ParseResult.error e
      | LineResult.entry e => ParseResult.ok ⟨[e]⟩ := by
    rw [show parse ⟨true, Except.ok [some l]⟩ = parseLines [l] from rfl,
      parseLines_singleton, processLine_eq l t0 t1 t2 t3 t4 rest hts]
  refine ⟨?_, ?_, ?_, ?_, ?_⟩
  · intro h0
    rw [key]
    simp only [decodeTokens, h0]
  · intro ab h0 h1
    obtain ⟨a, b⟩ := ab
    rw [key]
    simp only [decodeTokens, h0, h1]
  · intro ab p h0 h1 h2
    obtain ⟨a, b⟩ := ab
    rw [key]
    simp only [decodeTokens, h0, h1, h2]
  · intro ab p o h0 h1 h2 h3
    obtain ⟨a, b⟩ := ab
    rw [key]
    simp only [decodeTokens, h0, h1, h2, h3]
  · intro ab p o dd h0 h1 h2 h3 h4
    obtain ⟨a, b⟩ := ab
    obtain ⟨dj, dn⟩ := dd
    rw [key]
    simp only [decodeTokens, h0, h1, h2, h3, h4]

/-- Witness for the amended C1 at a line whose inode token is not a decimal
number: parse panics there. -/
theorem claim1_witness :
    splitWhitespace "0-1 rwxp 0 00:00 x" = ["0-1", "rwxp", "0", "00:00", "x"]
    ∧ parseU32? "x" = none
    ∧ parse ⟨true, Except.ok [some "0-1 rwxp 0 00:00 x"]⟩ = ParseResult.panics := by
  refine ⟨by decide, by decide, ?_⟩
  exact (claim1_decode_failure_behavior "0-1 rwxp 0 00:00 x" "0-1" "rwxp" "0" "00:00" "x" []
      (by decide)).2.2.2.2 (0, 1) ⟨true, true, true⟩ 0 (0, 0)
      (by decide) (by decide) rfl (by decide) (by decide)

/-- C2 (refuted as stated): on a line sequence whose first line has 5
tokens with a non-hexadecimal address field, parse does not surface an
error value — it panics (and indeed returns no collection). -/
theorem claim2_counterexample :
    parse ⟨true, Except.ok [some "gg-gg r-xp 0 00:00 2"]⟩ = ParseResult.panics := by
  decide

/-- C2 (amended): a line with at least 5 tokens whose address token fails
to decode causes the whole parse to panic: no MappingCollection is
returned, and no error value either, whatever lines follow. -/
theorem claim2_bad_address_panics (l t0 : String) (ts : List String)
    (more : List (Option String))
    (hts : splitWhitespace l = t0 :: ts) (h4 : 4 ≤ ts.length)
    (haddr : parse_addresses t0 = none) :
    parse ⟨true, Except.ok (some l :: more)⟩ = ParseResult.panics := by
  have h5 : 5 ≤ (splitWhitespace l).length := by
    rw [hts]
    simp only [List.length_cons]
    omega
  obtain ⟨u0, u1, u2, u3, u4, rest, hts5⟩ := exists_five_tokens _ h5
  rw [hts] at hts5
  injection hts5 with ht0 hrest
  have hpanic : processLine l = LineResult.panics := by
    rw [processLine_eq l u0 u1 u2 u3 u4 rest (by rw [hts, ht0, hrest])]
    simp only [decodeTokens, ht0 ▸ haddr]
  rw [show parse ⟨true, Except.ok (some l :: more)⟩
      = parseLines (l :: more.filterMap id) from rfl]
  exact parseLines_cons_panics l _ hpanic

/-- Witness for the amended C2: the bad first line panics even with a
well-formed line after it. -/
theorem claim2_witness :
    splitWhitespace "qq-qq r--p 0 00:00 7" = ["qq-qq", "r--p", "0", "00:00", "7"]
    ∧ parse_addresses "qq-qq" = none
    ∧ parse ⟨true, Except.ok [some "qq-qq r--p 0 00:00 7", some "0-1 r--p 0 00:00 1"]⟩
      = ParseResult.panics := by
  refine ⟨by decide, by decide, ?_⟩
  exact claim2_bad_address_panics "qq-qq r--p 0 00:00 7" "qq-qq"
    ["r--p", "0", "00:00", "7"] [some "0-1 r--p 0 00:00 1"]
    (by decide) (by decide) (by decide)

/-- C3 (refuted as stated): a token with three `-`-separated pieces does
not fail: the decoder returns the first two parsed values. -/
theorem claim3_counterexample : parse_addresses "1-2-3" = some (1, 2) := by
  decide

/-- C3 (amended): parse_addresses splits the token on the `-` separator
and panics — the error type has no FormatError — when some piece fails to
parse as base-16 unsigned 64-bit or when there are fewer than two pieces;
when there are at least two pieces and every piece parses, it returns the
first two parsed values as (start, end), ignoring any further pieces. -/
theorem claim3_decode_address_range (s : String) :
    ((∃ t ∈ stringSplit s (fun c => c == '-'), fromStrRadix? 16 u64Bound t = none) →
      parse_addresses s = none)
    ∧ ((stringSplit s (fun c => c == '-')).length < 2 → parse_addresses s = none)
    ∧ (∀ p0 p1 ps a b, stringSplit s (fun c => c == '-') = p0 :: p1 :: ps →
        fromStrRadix? 16 u64Bound p0 = some a →
        fromStrRadix? 16 u64Bound p1 = some b →
        (∀ t ∈ ps, (fromStrRadix? 16 u64Bound t).isSome = true) →
        parse_addresses s = some (a, b)) := by
  refine ⟨?_, ?_, ?_⟩
  · intro h
    obtain ⟨t, ht, hft⟩ := h
    simp only [parse_addresses]
    rw [collectMapped_none_of_mem _ _ t ht hft]
  · intro hlen
    simp only [parse_addresses]
    cases hc : collectMapped (fromStrRadix? 16 u64Bound) (stringSplit s (fun c => c == '-')) with
    | none => rfl
    | some vs =>
      have hv := collectMapped_length _ _ _ hc
      rcases vs with _ | ⟨x, _ | ⟨y, rest⟩⟩
      · rfl
      · rfl
      · simp only [List.length_cons] at hv
        omega
  · intro p0 p1 ps a b hsplit h0 h1 hps
    obtain ⟨ys, hys⟩ := collectMapped_of_forall_isSome (fromStrRadix? 16 u64Bound) ps hps
    have hcoll : collectMapped (fromStrRadix? 16 u64Bound) (p0 :: p1 :: ps)
        = some (a :: b :: ys) := by
      simp only [collectMapped, h0, h1, hys]
    simp only [parse_addresses, hsplit, hcoll]

/-- Witness for the amended C3: two valid hex pieces decode to their pair. -/
theorem claim3_witness :
    stringSplit "a-b" (fun c => c == '-') = ["a", "b"]
    ∧ parse_addresses "a-b" = some (10, 11) := by
  refine ⟨by decide, ?_⟩
  exact (claim3_decode_address_range "a-b").2.2 "a" "b" [] 10 11
    (by decide) (by decide) (by decide) (by decide)

/-- C4 (refuted as stated): a successful parse can produce an entry whose
end address is below its start address: the invariant is not validated. -/
theorem claim4_counterexample :
    parse ⟨true, Except.ok [some "5-3 r--p 0 00:00 0"]⟩
      = ParseResult.ok ⟨[⟨5, 3, ⟨true, false, false⟩, 0, 0, 0, 0, none⟩]⟩
    ∧ ¬ ((3 : Nat) > 5) := by
  exact ⟨by decide, by decide⟩

/-- C4 (amended): every entry of a successful parse has its start and end
addresses inside the unsigned 64-bit value domain (they are parsed with a
u64 bound); no ordering between end_addr and start_addr is enforced. -/
theorem claim4_address_bounds (env : MapsEnv) (es : Entries)
    (h : parse env = ParseResult.ok es) :
    ∀ e ∈ es.entries, e.start_addr < u64Bound ∧ e.end_addr < u64Bound := by
  obtain ⟨fe, openRes⟩ := env
  cases fe with
  | false => simp [parse] at h
  | true =>
    cases openRes with
    | error u => simp [parse] at h
    | ok lrs =>
      have h' : parseLinesAux (lrs.filterMap id) [] = ParseResult.ok es := by
        simpa [parse, parseLines] using h
      exact parseLinesAux_ok_mem _ processLine_entry_bounds _ [] es
        (by intro e he; cases he) h'

/-- Witness for the amended C4 at a concrete successful parse. -/
theorem claim4_witness :
    parse ⟨true, Except.ok [some "0-1 r--p 0 00:00 0"]⟩
      = ParseResult.ok ⟨[⟨0, 1, ⟨true, false, false⟩, 0, 0, 0, 0, none⟩]⟩
    ∧ ((⟨0, 1, ⟨true, false, false⟩, 0, 0, 0, 0, none⟩ : Entry).start_addr < u64Bound
      ∧ (⟨0, 1, ⟨true, false, false⟩, 0, 0, 0, 0, none⟩ : Entry).end_addr < u64Bound) := by
  refine ⟨by decide, ?_⟩
  exact claim4_address_bounds ⟨true, Except.ok [some "0-1 r--p 0 00:00 0"]⟩
    ⟨[⟨0, 1, ⟨true, false, false⟩, 0, 0, 0, 0, none⟩]⟩ (by decide)
    ⟨0, 1, ⟨true, false, false⟩, 0, 0, 0, 0, none⟩ (List.mem_singleton.mpr rfl)

end LinuxMapsParser
